import Mathlib

/-!
Shallow embedding of the two single-producer single-consumer queues of this
repository: `SPSCQueue` (cursor-based, unbounded 32-bit cursors) and
`SPSCQueueOPT` (per-slot availability flags, masked cursors).  Pointers into
the slot array are modelled as slot indices; the caller writing through the
pointer returned by `alloc` is modelled by `setSlot`; the caller reading
through the pointer returned by `front` is modelled by looking up `data`.
All 32-bit arithmetic of the source is made explicit with `% U32`.
-/

/-- The modulus of 32-bit unsigned arithmetic. -/
def U32 : Nat := 4294967296

/-- 32-bit unsigned subtraction, for operands already reduced below `U32`. -/
def sub32 (a b : Nat) : Nat := (a + U32 - b) % U32

/-- One operation of the single producer (`tryPush v`) or of the single
consumer (`tryPop`), in the order the two threads' calls interleave. -/
inductive Op (α : Type) where
  | push (v : α)
  | pop
  deriving DecidableEq

/-- State of `SPSCQueue<T, CNT>`: the slot array `data` (a map from masked slot
indices to the value last written there, `none` while unwritten), the producer
cursor `write_idx`, the producer-local cache `read_idx_cach`, and the consumer
cursor `read_idx`.  Cursors are 32-bit values, kept below `U32`. -/
structure SPSCQueue (α : Type) (N : Nat) : Type where
  data : Nat → Option α
  write_idx : Nat
  read_idx_cach : Nat
  read_idx : Nat

namespace SPSCQueue

/-- The freshly constructed queue: zeroed cursors, no slot written yet. -/
def init (α : Type) (N : Nat) : SPSCQueue α N :=
  { data := fun _ => none, write_idx := 0, read_idx_cach := 0, read_idx := 0 }

/-- `alloc()`: if `write_idx - read_idx_cach == CNT`, refresh the cache from
`read_idx`; if still full return null, otherwise return (the index of) the
slot `&data[write_idx & MASK]`. -/
def alloc (q : SPSCQueue α N) : Option Nat × SPSCQueue α N :=
  if sub32 q.write_idx q.read_idx_cach = N then
    if sub32 q.write_idx q.read_idx = N then
      (none, { q with read_idx_cach := q.read_idx })
    else
      (some (q.write_idx &&& (N - 1)), { q with read_idx_cach := q.read_idx })
  else
    (some (q.write_idx &&& (N - 1)), q)

/-- `push()`: store `write_idx + 1` (32-bit) into the write cursor. -/
def push (q : SPSCQueue α N) : SPSCQueue α N :=
  { q with write_idx := (q.write_idx + 1) % U32 }

/-- The caller writing the element `v` through the pointer returned by
`alloc`, i.e. into slot `i`. -/
def setSlot (q : SPSCQueue α N) (i : Nat) (v : α) : SPSCQueue α N :=
  { q with data := fun j => if j = i then some v else q.data j }

/-- `front()`: null when `read_idx == write_idx`, else (the index of) the
slot `&data[read_idx & MASK]`. -/
def front (q : SPSCQueue α N) : Option Nat :=
  if q.read_idx = q.write_idx then none else some (q.read_idx &&& (N - 1))

/-- `pop()`: store `read_idx + 1` (32-bit) into the read cursor. -/
def pop (q : SPSCQueue α N) : SPSCQueue α N :=
  { q with read_idx := (q.read_idx + 1) % U32 }

/-- `tryPush(writer)` where the writer writes the fixed value `v`. -/
def tryPush (v : α) (q : SPSCQueue α N) : Bool × SPSCQueue α N :=
  match q.alloc with
  | (none, q1) => (false, q1)
  | (some p, q1) => (true, (q1.setSlot p v).push)

/-- `tryPop(reader)`: the value the reader observes, and the new state. -/
def tryPop (q : SPSCQueue α N) : Option α × SPSCQueue α N :=
  match q.front with
  | none => (none, q)
  | some p => (q.data p, q.pop)

/-- `tryPush(writer)` with a general writer callback (the callback reads the
slot it is handed and decides what to write there).  The middle component
records the slot index of every invocation of the callback. -/
def tryPushW (writer : Option α → α) (q : SPSCQueue α N) :
    Bool × List Nat × SPSCQueue α N :=
  match q.alloc with
  | (none, q1) => (false, [], q1)
  | (some p, q1) => (true, [p], (q1.setSlot p (writer (q1.data p))).push)

/-- `tryPop(reader)` with the reader callback instrumented: the middle
component records, for every invocation, the slot index handed to the
callback together with the slot content it reads there. -/
def tryPopW (q : SPSCQueue α N) :
    Bool × List (Nat × Option α) × SPSCQueue α N :=
  match q.front with
  | none => (false, [], q)
  | some p => (true, [(p, q.data p)], q.pop)

/-- `blockPush(writer)`: spin on `tryPush` until it succeeds.  The fuel bounds
the number of iterations so the spin is a total function; the result carries
the final state and the number of `tryPush` calls made. -/
def blockPushFuel (fuel : Nat) (v : α) (q : SPSCQueue α N) :
    Option (SPSCQueue α N × Nat) :=
  match fuel with
  | 0 => none
  | fuel + 1 =>
    match q.tryPush v with
    | (true, q1) => some (q1, 1)
    | (false, q1) => (blockPushFuel fuel v q1).map (fun r => (r.1, r.2 + 1))

/-- Run a list of interleaved producer/consumer operations from state `q`.
Returns the final state, the values written by the successful `tryPush`
calls, and the values read by the successful `tryPop` calls, in order. -/
def runAux (q : SPSCQueue α N) : List (Op α) → SPSCQueue α N × List α × List α
  | [] => (q, [], [])
  | Op.push v :: ops =>
    let r := q.tryPush v
    let rest := runAux r.2 ops
    (rest.1, (if r.1 then [v] else []) ++ rest.2.1, rest.2.2)
  | Op.pop :: ops =>
    let r := q.tryPop
    let rest := runAux r.2 ops
    (rest.1, rest.2.1, r.1.toList ++ rest.2.2)

/-- Run a list of operations from the freshly constructed queue. -/
def run (α : Type) (N : Nat) (ops : List (Op α)) :
    SPSCQueue α N × List α × List α :=
  runAux (init α N) ops

/-- Invariant of `SPSCQueue`: `pushed`/`popped` are the values written/read by
the successful operations so far.  The cursors are the 32-bit reductions of
the push and pop counts, the producer cache is the 32-bit reduction of a pop
count observed no later than now, at most `N` elements are outstanding, every
outstanding element sits in its ring slot, and the popped values are exactly
the oldest pushed ones. -/
structure Inv (N : Nat) (q : SPSCQueue α N) (pushed popped : List α) :
    Prop where
  hRW : popped.length ≤ pushed.length
  hcap : pushed.length - popped.length ≤ N
  hw : q.write_idx = pushed.length % U32
  hr : q.read_idx = popped.length % U32
  hcach : ∃ C, q.read_idx_cach = C % U32 ∧ C ≤ popped.length ∧
    pushed.length - C ≤ N
  hdata : ∀ k, popped.length ≤ k → k < pushed.length →
    q.data (k % N) = pushed[k]?
  hpre : popped = pushed.take popped.length

end SPSCQueue

/-- State of `SPSCQueueOPT<T, CNT>`: per-slot availability flags `avail` and
slot contents `data` (the two fields of each `Block` of the `blk` array), the
producer cursor `write_idx` and its local free-slot count `free_write_cnt`,
and the consumer cursor `read_idx`.  Both cursors are kept masked by the
source, so they stay below `N`; `free_write_cnt` is a 32-bit value. -/
structure SPSCQueueOPT (α : Type) (N : Nat) : Type where
  avail : Nat → Bool
  data : Nat → Option α
  write_idx : Nat
  free_write_cnt : Nat
  read_idx : Nat

namespace SPSCQueueOPT

/-- The freshly constructed queue: all flags down, cursors zero, and
`free_write_cnt = CNT - 1`. -/
def init (α : Type) (N : Nat) : SPSCQueueOPT α N :=
  { avail := fun _ => false, data := fun _ => none,
    write_idx := 0, free_write_cnt := N - 1, read_idx := 0 }

/-- `alloc()`: when the cached free count is zero, recompute it as
`(read_idx - write_idx + CNT - 1) & MASK` (32-bit arithmetic); null when the
recomputed count is still zero, else (the index of) `&blk[write_idx].data`. -/
def alloc (q : SPSCQueueOPT α N) : Option Nat × SPSCQueueOPT α N :=
  if q.free_write_cnt = 0 then
    if ((sub32 q.read_idx q.write_idx + (N - 1)) % U32) &&& (N - 1) = 0 then
      (none, { q with
        free_write_cnt := ((sub32 q.read_idx q.write_idx + (N - 1)) % U32) &&& (N - 1) })
    else
      (some q.write_idx, { q with
        free_write_cnt := ((sub32 q.read_idx q.write_idx + (N - 1)) % U32) &&& (N - 1) })
  else
    (some q.write_idx, q)

/-- `push()`: raise `blk[write_idx].avail`, advance `write_idx` under the
mask, and decrement the cached free count (32-bit decrement). -/
def push (q : SPSCQueueOPT α N) : SPSCQueueOPT α N :=
  { q with
    avail := fun j => if j = q.write_idx then true else q.avail j,
    write_idx := (q.write_idx + 1) &&& (N - 1),
    free_write_cnt := (q.free_write_cnt + U32 - 1) % U32 }

/-- The caller writing the element `v` through the pointer returned by
`alloc`, i.e. into slot `i`. -/
def setSlot (q : SPSCQueueOPT α N) (i : Nat) (v : α) : SPSCQueueOPT α N :=
  { q with data := fun j => if j = i then some v else q.data j }

/-- `front()`: null when `blk[read_idx].avail` is down, else (the index of)
`&blk[read_idx].data`. -/
def front (q : SPSCQueueOPT α N) : Option Nat :=
  if q.avail q.read_idx then some q.read_idx else none

/-- `pop()`: lower `blk[read_idx].avail`, then store `(read_idx + 1) & MASK`
into the read cursor. -/
def pop (q : SPSCQueueOPT α N) : SPSCQueueOPT α N :=
  { q with
    avail := fun j => if j = q.read_idx then false else q.avail j,
    read_idx := (q.read_idx + 1) &&& (N - 1) }

/-- `tryPush(writer)` where the writer writes the fixed value `v`. -/
def tryPush (v : α) (q : SPSCQueueOPT α N) : Bool × SPSCQueueOPT α N :=
  match q.alloc with
  | (none, q1) => (false, q1)
  | (some p, q1) => (true, (q1.setSlot p v).push)

/-- `tryPop(reader)`: the value the reader observes, and the new state. -/
def tryPop (q : SPSCQueueOPT α N) : Option α × SPSCQueueOPT α N :=
  match q.front with
  | none => (none, q)
  | some p => (q.data p, q.pop)

/-- `tryPush(writer)` with a general writer callback; the middle component
records the slot index of every invocation of the callback. -/
def tryPushW (writer : Option α → α) (q : SPSCQueueOPT α N) :
    Bool × List Nat × SPSCQueueOPT α N :=
  match q.alloc with
  | (none, q1) => (false, [], q1)
  | (some p, q1) => (true, [p], (q1.setSlot p (writer (q1.data p))).push)

/-- `tryPop(reader)` with the reader callback instrumented: the middle
component records, for every invocation, the slot index handed to the
callback together with the slot content it reads there. -/
def tryPopW (q : SPSCQueueOPT α N) :
    Bool × List (Nat × Option α) × SPSCQueueOPT α N :=
  match q.front with
  | none => (false, [], q)
  | some p => (true, [(p, q.data p)], q.pop)

/-- `blockPush(writer)`: spin on `tryPush` until it succeeds, with fuel. -/
def blockPushFuel (fuel : Nat) (v : α) (q : SPSCQueueOPT α N) :
    Option (SPSCQueueOPT α N × Nat) :=
  match fuel with
  | 0 => none
  | fuel + 1 =>
    match q.tryPush v with
    | (true, q1) => some (q1, 1)
    | (false, q1) => (blockPushFuel fuel v q1).map (fun r => (r.1, r.2 + 1))

/-- Run a list of interleaved producer/consumer operations from state `q`. -/
def runAux (q : SPSCQueueOPT α N) :
    List (Op α) → SPSCQueueOPT α N × List α × List α
  | [] => (q, [], [])
  | Op.push v :: ops =>
    let r := q.tryPush v
    let rest := runAux r.2 ops
    (rest.1, (if r.1 then [v] else []) ++ rest.2.1, rest.2.2)
  | Op.pop :: ops =>
    let r := q.tryPop
    let rest := runAux r.2 ops
    (rest.1, rest.2.1, r.1.toList ++ rest.2.2)

/-- Run a list of operations from the freshly constructed queue. -/
def run (α : Type) (N : Nat) (ops : List (Op α)) :
    SPSCQueueOPT α N × List α × List α :=
  runAux (init α N) ops

/-- Invariant of `SPSCQueueOPT`: the masked cursors are the push and pop
counts reduced mod `N`, at most `N - 1` elements are outstanding, the cached
free count never overestimates the true number of free slots
`(N - 1) - outstanding`, a slot's flag is up exactly when it holds an
outstanding element, every outstanding element sits in its ring slot, and the
popped values are exactly the oldest pushed ones. -/
structure Inv (N : Nat) {α : Type} (q : SPSCQueueOPT α N)
    (pushed popped : List α) : Prop where
  hRW : popped.length ≤ pushed.length
  hcap : pushed.length - popped.length ≤ N - 1
  hw : q.write_idx = pushed.length % N
  hr : q.read_idx = popped.length % N
  hfree : q.free_write_cnt ≤ (N - 1) - (pushed.length - popped.length)
  havail : ∀ j, q.avail j = true ↔
    ∃ k, popped.length ≤ k ∧ k < pushed.length ∧ k % N = j
  hdata : ∀ k, popped.length ≤ k → k < pushed.length →
    q.data (k % N) = pushed[k]?
  hpre : popped = pushed.take popped.length

end SPSCQueueOPT

/-! Arithmetic facts about the 32-bit operations used by both variants. -/

theorem U32_eq_pow : U32 = 2 ^ 32 := by norm_num [U32]

theorem U32_pos : 0 < U32 := by norm_num [U32]

theorem pow_dvd_U32 {n : Nat} (hn : n ≤ 32) : 2 ^ n ∣ U32 := by
  rw [U32_eq_pow]
  exact pow_dvd_pow 2 hn

/-- Masking a 32-bit value with `2^n - 1` is reduction mod `2^n`. -/
theorem mask_mod_U32 {n : Nat} (hn : n ≤ 32) (x : Nat) :
    (x % U32) &&& (2 ^ n - 1) = x % 2 ^ n := by
  rw [Nat.and_pow_two_sub_one_eq_mod, Nat.mod_mod_of_dvd x (pow_dvd_U32 hn)]

theorem mask_eq_mod (n x : Nat) : x &&& (2 ^ n - 1) = x % 2 ^ n :=
  Nat.and_pow_two_sub_one_eq_mod x n

/-- 32-bit subtraction of reduced counters computes the true difference when
that difference fits. -/
theorem sub32_exact {a b : Nat} (hba : b ≤ a) (h : a - b < U32) :
    sub32 (a % U32) (b % U32) = a - b := by
  unfold sub32 U32 at *
  omega

/-- Two counters whose true difference fits in 32 bits are equal exactly when
their 32-bit reductions are. -/
theorem mod_U32_inj {a b : Nat} (hba : b ≤ a) (h : a - b < U32) :
    (a % U32 = b % U32 ↔ a = b) := by
  unfold U32 at *
  omega

/-- The 32-bit decrement of a small positive value. -/
theorem dec32 {f : Nat} (h1 : 1 ≤ f) (h2 : f < U32) :
    (f + U32 - 1) % U32 = f - 1 := by
  unfold U32 at *
  omega

/-- Distinct congruent numbers are at least a full period apart. -/
theorem mod_eq_add_of_le {P k m : Nat} (h : k % P = m % P) (hle : m ≤ k)
    (hne : m ≠ k) : m + P ≤ k := by
  have hd : P ∣ k - m := (Nat.modEq_iff_dvd' hle).mp (Nat.ModEq.symm h)
  have := Nat.le_of_dvd (m := P) (by omega) hd
  omega

/-- The free-count recomputation `(read_idx - write_idx + CNT - 1) & MASK` of
`SPSCQueueOPT::alloc`, performed on the masked cursors in 32-bit arithmetic,
recovers the exact number of free slots `(N - 1) - (pushes - pops)`. -/
theorem recompute_eq {n : Nat} (hn : n ≤ 31) {R S : Nat} (hRS : R ≤ S)
    (hd : S - R ≤ 2 ^ n - 1) :
    ((sub32 (R % 2 ^ n) (S % 2 ^ n) + (2 ^ n - 1)) % U32) &&& (2 ^ n - 1) =
      (2 ^ n - 1) - (S - R) := by
  have hN : 0 < 2 ^ n := Nat.two_pow_pos n
  have hdvd : (2 : Nat) ^ n ∣ U32 := pow_dvd_U32 (by omega)
  have hNU : 2 ^ n ≤ U32 := Nat.le_of_dvd U32_pos hdvd
  have hU0 : U32 ≡ 0 [MOD 2 ^ n] := Nat.modEq_zero_iff_dvd.mpr hdvd
  have hb : S % 2 ^ n < 2 ^ n := Nat.mod_lt _ hN
  have ha : R % 2 ^ n < 2 ^ n := Nat.mod_lt _ hN
  rw [mask_eq_mod, Nat.mod_mod_of_dvd _ hdvd]
  unfold sub32
  rw [Nat.add_mod, Nat.mod_mod_of_dvd _ hdvd, ← Nat.add_mod]
  have hT : 2 ^ n - 1 - (S - R) < 2 ^ n := by omega
  have key : (R % 2 ^ n + U32 - S % 2 ^ n + (2 ^ n - 1)) ≡
      (2 ^ n - 1 - (S - R)) [MOD 2 ^ n] := by
    apply Nat.ModEq.add_right_cancel' (S % 2 ^ n)
    have e1 : R % 2 ^ n + U32 - S % 2 ^ n + (2 ^ n - 1) + S % 2 ^ n =
        R % 2 ^ n + U32 + (2 ^ n - 1) := by omega
    rw [e1]
    calc R % 2 ^ n + U32 + (2 ^ n - 1)
        ≡ R % 2 ^ n + 0 + (2 ^ n - 1) [MOD 2 ^ n] :=
          ((Nat.ModEq.refl _).add hU0).add_right _
      _ = R % 2 ^ n + (2 ^ n - 1) := by omega
      _ ≡ R + (2 ^ n - 1) [MOD 2 ^ n] := (Nat.mod_modEq R _).add_right _
      _ = (2 ^ n - 1 - (S - R)) + S := by omega
      _ ≡ (2 ^ n - 1 - (S - R)) + S % 2 ^ n [MOD 2 ^ n] :=
          (Nat.ModEq.refl _).add (Nat.mod_modEq S _).symm
  calc (R % 2 ^ n + U32 - S % 2 ^ n + (2 ^ n - 1)) % 2 ^ n
      = (2 ^ n - 1 - (S - R)) % 2 ^ n := key
    _ = 2 ^ n - 1 - (S - R) := Nat.mod_eq_of_lt hT


/-! The inductive invariant of `SPSCQueue`, relating a state to the history of
successfully pushed and popped values, and its preservation by every step. -/

namespace SPSCQueue

variable {α : Type} {n : Nat}

theorem Inv_init (α : Type) (N : Nat) : Inv N (init α N) [] [] :=
  ⟨Nat.le_refl _, Nat.zero_le _, (Nat.zero_mod _).symm, (Nat.zero_mod _).symm,
    ⟨0, (Nat.zero_mod _).symm, Nat.le_refl _, Nat.zero_le _⟩,
    fun k _ h2 => absurd h2 (Nat.not_lt_zero k), rfl⟩

theorem alloc_full (hn : n ≤ 31) {q : SPSCQueue α (2 ^ n)}
    {pushed popped : List α} (hInv : Inv (2 ^ n) q pushed popped)
    (hfull : pushed.length - popped.length = 2 ^ n) :
    q.alloc = (none, { q with read_idx_cach := q.read_idx }) := by
  obtain ⟨C, hC, hCR, hCN⟩ := hInv.hcach
  have hNU : (2 : Nat) ^ n < U32 :=
    lt_of_le_of_lt (Nat.pow_le_pow_right (by norm_num) hn) (by norm_num [U32])
  have h1 : sub32 q.write_idx q.read_idx_cach = pushed.length - C := by
    rw [hInv.hw, hC]
    exact sub32_exact (le_trans hCR hInv.hRW) (by omega)
  have h2 : sub32 q.write_idx q.read_idx = pushed.length - popped.length := by
    rw [hInv.hw, hInv.hr]
    exact sub32_exact hInv.hRW (by omega)
  unfold alloc
  rw [h1, if_pos (by omega : pushed.length - C = 2 ^ n), h2, if_pos hfull]

theorem alloc_notfull (hn : n ≤ 31) {q : SPSCQueue α (2 ^ n)}
    {pushed popped : List α} (hInv : Inv (2 ^ n) q pushed popped)
    (hlt : pushed.length - popped.length < 2 ^ n) :
    ∃ q1, q.alloc = (some (pushed.length % 2 ^ n), q1) ∧
      q1.data = q.data ∧ q1.write_idx = q.write_idx ∧
      q1.read_idx = q.read_idx ∧
      ∃ D, q1.read_idx_cach = D % U32 ∧ D ≤ popped.length ∧
        pushed.length - D < 2 ^ n := by
  obtain ⟨C, hC, hCR, hCN⟩ := hInv.hcach
  have hNU : (2 : Nat) ^ n < U32 :=
    lt_of_le_of_lt (Nat.pow_le_pow_right (by norm_num) hn) (by norm_num [U32])
  have h1 : sub32 q.write_idx q.read_idx_cach = pushed.length - C := by
    rw [hInv.hw, hC]
    exact sub32_exact (le_trans hCR hInv.hRW) (by omega)
  have h2 : sub32 q.write_idx q.read_idx = pushed.length - popped.length := by
    rw [hInv.hw, hInv.hr]
    exact sub32_exact hInv.hRW (by omega)
  have hmask : q.write_idx &&& (2 ^ n - 1) = pushed.length % 2 ^ n := by
    rw [hInv.hw, mask_mod_U32 (by omega)]
  by_cases hfC : pushed.length - C = 2 ^ n
  · refine ⟨{ q with read_idx_cach := q.read_idx }, ?_, rfl, rfl, rfl,
      ⟨popped.length, hInv.hr, Nat.le_refl _, hlt⟩⟩
    unfold alloc
    rw [h1, if_pos hfC, h2, if_neg (by omega), hmask]
  · refine ⟨q, ?_, rfl, rfl, rfl, ⟨C, hC, hCR, by omega⟩⟩
    unfold alloc
    rw [h1, if_neg hfC, hmask]

theorem alloc_isSome_iff (hn : n ≤ 31) {q : SPSCQueue α (2 ^ n)}
    {pushed popped : List α} (hInv : Inv (2 ^ n) q pushed popped) :
    ((q.alloc).1).isSome = true ↔
      pushed.length - popped.length < 2 ^ n := by
  rcases lt_or_eq_of_le hInv.hcap with hlt | hfull
  · obtain ⟨q1, ha, -⟩ := alloc_notfull hn hInv hlt
    simp [ha, hlt]
  · rw [alloc_full hn hInv hfull]
    simp
    omega

theorem tryPush_full (hn : n ≤ 31) {q : SPSCQueue α (2 ^ n)}
    {pushed popped : List α} {v : α} (hInv : Inv (2 ^ n) q pushed popped)
    (hfull : pushed.length - popped.length = 2 ^ n) :
    q.tryPush v = (false, { q with read_idx_cach := q.read_idx }) ∧
      Inv (2 ^ n) (q.tryPush v).2 pushed popped := by
  have halloc := alloc_full hn hInv hfull
  have heq : q.tryPush v = (false, { q with read_idx_cach := q.read_idx }) := by
    simp [tryPush, halloc]
  refine ⟨heq, ?_⟩
  rw [heq]
  exact ⟨hInv.hRW, hInv.hcap, hInv.hw, hInv.hr,
    ⟨popped.length, hInv.hr, Nat.le_refl _, hInv.hcap⟩, hInv.hdata, hInv.hpre⟩

theorem tryPush_notfull (hn : n ≤ 31) {q : SPSCQueue α (2 ^ n)}
    {pushed popped : List α} {v : α} (hInv : Inv (2 ^ n) q pushed popped)
    (hlt : pushed.length - popped.length < 2 ^ n) :
    (q.tryPush v).1 = true ∧
      Inv (2 ^ n) (q.tryPush v).2 (pushed ++ [v]) popped := by
  obtain ⟨q1, ha, hd1, hw1, hr1, D, hD, hDR, hDN⟩ := alloc_notfull hn hInv hlt
  have hRW := hInv.hRW
  have heq : q.tryPush v =
      (true, (q1.setSlot (pushed.length % 2 ^ n) v).push) := by
    simp [tryPush, ha]
  rw [heq]
  have hlen : (pushed ++ [v]).length = pushed.length + 1 := by simp
  refine ⟨rfl, ?_, ?_, ?_, ?_, ?_, ?_, ?_⟩
  · rw [hlen]; exact le_trans hInv.hRW (Nat.le_succ _)
  · rw [hlen]; omega
  · show ((q1.setSlot (pushed.length % 2 ^ n) v).push).write_idx = _
    show (q1.write_idx + 1) % U32 = _
    rw [hw1, hInv.hw, Nat.mod_add_mod, hlen]
  · show q1.read_idx = _
    rw [hr1, hInv.hr]
  · exact ⟨D, hD, hDR, by rw [hlen]; omega⟩
  · intro k hk1 hk2
    rw [hlen] at hk2
    show (if k % 2 ^ n = pushed.length % 2 ^ n then some v
      else q1.data (k % 2 ^ n)) = _
    by_cases hkW : k = pushed.length
    · subst hkW
      rw [if_pos rfl]
      exact (List.getElem?_concat_length pushed v).symm
    · have hklt : k < pushed.length := by omega
      have hne : ¬ k % 2 ^ n = pushed.length % 2 ^ n := by
        intro hcontra
        have hge := mod_eq_add_of_le (P := 2 ^ n) hcontra.symm
          (le_of_lt hklt) (by omega)
        omega
      rw [if_neg hne, hd1, hInv.hdata k hk1 hklt]
      exact (List.getElem?_append_left hklt).symm
  · show popped = (pushed ++ [v]).take popped.length
    rw [List.take_append_eq_append_take,
      (by omega : popped.length - pushed.length = 0)]
    simpa using hInv.hpre

theorem tryPop_empty {N : Nat} {q : SPSCQueue α N} {pushed popped : List α}
    (hInv : Inv N q pushed popped) (heq : popped.length = pushed.length) :
    q.tryPop = (none, q) := by
  have hfr : q.front = none := by
    unfold front
    rw [hInv.hr, hInv.hw, heq, if_pos rfl]
  simp [tryPop, hfr]

theorem tryPop_nonempty (hn : n ≤ 31) {q : SPSCQueue α (2 ^ n)}
    {pushed popped : List α} (hInv : Inv (2 ^ n) q pushed popped)
    (hlt : popped.length < pushed.length) :
    (q.tryPop).1 = pushed[popped.length]? ∧
      Inv (2 ^ n) (q.tryPop).2 pushed (popped ++ (q.tryPop).1.toList) := by
  have hN : 0 < 2 ^ n := Nat.two_pow_pos n
  have hNU : (2 : Nat) ^ n < U32 :=
    lt_of_le_of_lt (Nat.pow_le_pow_right (by norm_num) hn) (by norm_num [U32])
  obtain ⟨C, hC, hCR, hCN⟩ := hInv.hcach
  have hfr : q.front = some (popped.length % 2 ^ n) := by
    unfold front
    rw [hInv.hr, hInv.hw]
    have hne : ¬ popped.length % U32 = pushed.length % U32 := by
      intro h
      have := (mod_U32_inj hInv.hRW (by omega)).mp h.symm
      omega
    rw [if_neg hne, mask_mod_U32 (by omega)]
  have hval : q.data (popped.length % 2 ^ n) = pushed[popped.length]? :=
    hInv.hdata _ (Nat.le_refl _) hlt
  have heq : q.tryPop = (pushed[popped.length]?, q.pop) := by
    simp [tryPop, hfr, hval]
  rw [heq]
  have hx := List.getElem?_eq_getElem hlt
  refine ⟨rfl, ?_⟩
  rw [hx, Option.toList_some]
  have hlen2 : (popped ++ [pushed[popped.length]]).length =
      popped.length + 1 := by simp
  refine ⟨?_, ?_, ?_, ?_, ?_, ?_, ?_⟩
  · rw [hlen2]; omega
  · rw [hlen2]; omega
  · exact hInv.hw
  · show (q.read_idx + 1) % U32 = _
    rw [hInv.hr, Nat.mod_add_mod, hlen2]
  · exact ⟨C, hC, by rw [hlen2]; omega, by omega⟩
  · intro k hk1 hk2
    rw [hlen2] at hk1
    exact hInv.hdata k (by omega) hk2
  · show popped ++ [pushed[popped.length]] = pushed.take _
    rw [hlen2, List.take_succ, hx, Option.toList_some, ← hInv.hpre]

end SPSCQueue

namespace SPSCQueue

/-- Every interleaving of operations preserves the invariant, extending the
push/pop histories by exactly the values reported by the run. -/
theorem runAux_inv {α : Type} {n : Nat} (hn : n ≤ 31) :
    ∀ (ops : List (Op α)) (q : SPSCQueue α (2 ^ n)) (pushed popped : List α),
      Inv (2 ^ n) q pushed popped →
      Inv (2 ^ n) (runAux q ops).1 (pushed ++ (runAux q ops).2.1)
        (popped ++ (runAux q ops).2.2)
  | [], q, pushed, popped, hInv => by
    simpa [runAux] using hInv
  | Op.push v :: ops, q, pushed, popped, hInv => by
    rcases lt_or_eq_of_le hInv.hcap with hlt | hfull
    · obtain ⟨hb, hInv2⟩ := tryPush_notfull hn hInv hlt
      have IH := runAux_inv hn ops (q.tryPush v).2 (pushed ++ [v]) popped hInv2
      simp only [runAux, hb, if_true]
      rw [← List.append_assoc]
      exact IH
    · obtain ⟨heq, hInv2⟩ := tryPush_full hn hInv hfull
      have hb : (q.tryPush v).1 = false := by rw [heq]
      have IH := runAux_inv hn ops (q.tryPush v).2 pushed popped hInv2
      simp only [runAux, hb, if_false]
      simpa using IH
  | Op.pop :: ops, q, pushed, popped, hInv => by
    rcases lt_or_eq_of_le hInv.hRW with hlt | heqRW
    · obtain ⟨hv, hInv2⟩ := tryPop_nonempty hn hInv hlt
      have IH := runAux_inv hn ops (q.tryPop).2
        pushed (popped ++ (q.tryPop).1.toList) hInv2
      simp only [runAux]
      rw [← List.append_assoc]
      exact IH
    · have heq : q.tryPop = (none, q) := tryPop_empty hInv heqRW
      have IH := runAux_inv hn ops (q.tryPop).2 pushed popped (by rw [heq]; exact hInv)
      simp only [runAux, heq]
      simpa [heq] using IH

/-- The invariant holds after any run from the freshly constructed queue. -/
theorem run_inv {α : Type} {n : Nat} (hn : n ≤ 31) (ops : List (Op α)) :
    Inv (2 ^ n) (run α (2 ^ n) ops).1 (run α (2 ^ n) ops).2.1
      (run α (2 ^ n) ops).2.2 := by
  have h := runAux_inv hn ops (init α (2 ^ n)) [] [] (Inv_init α (2 ^ n))
  simpa [run] using h

/-- A run containing no consumer operation reads no value. -/
theorem runAux_no_pop {α : Type} {N : Nat} :
    ∀ (ops : List (Op α)) (q : SPSCQueue α N), Op.pop ∉ ops →
      (runAux q ops).2.2 = []
  | [], q, _ => rfl
  | Op.push v :: ops, q, h => by
    have h2 : Op.pop ∉ ops := fun hc => h (List.mem_cons_of_mem _ hc)
    simp [runAux, runAux_no_pop ops (q.tryPush v).2 h2]
  | Op.pop :: ops, q, h => absurd (List.mem_cons_self _ _) h

/-- From any state that still has room for `k` more elements, `k` consecutive
`tryPush` calls all succeed. -/
theorem replicate_pushes {α : Type} {n : Nat} (hn : n ≤ 31) (v : α) :
    ∀ (k : Nat) (q : SPSCQueue α (2 ^ n)) (pushed popped : List α),
      Inv (2 ^ n) q pushed popped →
      pushed.length - popped.length + k ≤ 2 ^ n →
      (runAux q (List.replicate k (Op.push v))).2.1 = List.replicate k v
  | 0, q, pushed, popped, _, _ => rfl
  | k + 1, q, pushed, popped, hInv, hk => by
    have hlt : pushed.length - popped.length < 2 ^ n := by omega
    obtain ⟨hb, hInv2⟩ := tryPush_notfull hn hInv hlt
    have hRW := hInv.hRW
    have IH := replicate_pushes hn v k (q.tryPush v).2 (pushed ++ [v]) popped
      hInv2 (by simp only [List.length_append, List.length_cons,
        List.length_nil]; omega)
    simp [List.replicate_succ, runAux, hb, IH]

end SPSCQueue

/-! The inductive invariant of `SPSCQueueOPT` and its preservation. -/

namespace SPSCQueueOPT

theorem Inv_init_opt (α : Type) (N : Nat) : Inv N (init α N) [] [] :=
  ⟨Nat.le_refl _, Nat.zero_le _, (Nat.zero_mod _).symm, (Nat.zero_mod _).symm,
    Nat.le_refl _, fun j => by simp [init],
    fun k _ h2 => absurd h2 (Nat.not_lt_zero k), rfl⟩

theorem alloc_spec {α : Type} {n : Nat} (hn : n ≤ 31)
    {q : SPSCQueueOPT α (2 ^ n)} {pushed popped : List α}
    (hInv : Inv (2 ^ n) q pushed popped) :
    (pushed.length - popped.length = 2 ^ n - 1 →
      q.alloc = (none, { q with free_write_cnt := 0 })) ∧
    (pushed.length - popped.length < 2 ^ n - 1 →
      ∃ q1, q.alloc = (some (pushed.length % 2 ^ n), q1) ∧
        q1.avail = q.avail ∧ q1.data = q.data ∧
        q1.write_idx = q.write_idx ∧ q1.read_idx = q.read_idx ∧
        1 ≤ q1.free_write_cnt ∧
        q1.free_write_cnt ≤ (2 ^ n - 1) - (pushed.length - popped.length)) := by
  have hrec : ((sub32 q.read_idx q.write_idx + (2 ^ n - 1)) % U32) &&&
      (2 ^ n - 1) = (2 ^ n - 1) - (pushed.length - popped.length) := by
    rw [hInv.hr, hInv.hw]
    exact recompute_eq hn hInv.hRW hInv.hcap
  have hfree := hInv.hfree
  constructor
  · intro hfull
    have hf0 : q.free_write_cnt = 0 := by omega
    unfold alloc
    rw [if_pos hf0, hrec, hfull, Nat.sub_self, if_pos rfl]
  · intro hlt
    by_cases hf0 : q.free_write_cnt = 0
    · refine ⟨{ q with
        free_write_cnt := (2 ^ n - 1) - (pushed.length - popped.length) },
        ?_, rfl, rfl, rfl, rfl, ?_, ?_⟩
      · unfold alloc
        rw [if_pos hf0, hrec, if_neg (by omega), hInv.hw]
      · show 1 ≤ (2 ^ n - 1) - (pushed.length - popped.length)
        omega
      · show (2 ^ n - 1) - (pushed.length - popped.length) ≤ _
        omega
    · refine ⟨q, ?_, rfl, rfl, rfl, rfl, by omega, hInv.hfree⟩
      unfold alloc
      rw [if_neg hf0, hInv.hw]

theorem alloc_isSome_iff_opt {α : Type} {n : Nat} (hn : n ≤ 31)
    {q : SPSCQueueOPT α (2 ^ n)} {pushed popped : List α}
    (hInv : Inv (2 ^ n) q pushed popped) :
    ((q.alloc).1).isSome = true ↔
      pushed.length - popped.length < 2 ^ n - 1 := by
  rcases lt_or_eq_of_le hInv.hcap with hlt | hfull
  · obtain ⟨q1, ha, -⟩ := (alloc_spec hn hInv).2 hlt
    simp [ha, hlt]
  · rw [(alloc_spec hn hInv).1 hfull]
    simp
    omega

theorem tryPush_full_opt {α : Type} {n : Nat} (hn : n ≤ 31)
    {q : SPSCQueueOPT α (2 ^ n)} {pushed popped : List α} {v : α}
    (hInv : Inv (2 ^ n) q pushed popped)
    (hfull : pushed.length - popped.length = 2 ^ n - 1) :
    q.tryPush v = (false, { q with free_write_cnt := 0 }) ∧
      Inv (2 ^ n) (q.tryPush v).2 pushed popped := by
  have ha := (alloc_spec hn hInv).1 hfull
  have heq : q.tryPush v = (false, { q with free_write_cnt := 0 }) := by
    simp [tryPush, ha]
  refine ⟨heq, ?_⟩
  rw [heq]
  exact ⟨hInv.hRW, hInv.hcap, hInv.hw, hInv.hr, Nat.zero_le _,
    hInv.havail, hInv.hdata, hInv.hpre⟩

theorem tryPush_notfull_opt {α : Type} {n : Nat} (hn : n ≤ 31)
    {q : SPSCQueueOPT α (2 ^ n)} {pushed popped : List α} {v : α}
    (hInv : Inv (2 ^ n) q pushed popped)
    (hlt : pushed.length - popped.length < 2 ^ n - 1) :
    (q.tryPush v).1 = true ∧
      Inv (2 ^ n) (q.tryPush v).2 (pushed ++ [v]) popped := by
  obtain ⟨q1, ha, hav, hd1, hw1, hr1, hfge, hfle⟩ := (alloc_spec hn hInv).2 hlt
  have hRW := hInv.hRW
  have hN : 0 < 2 ^ n := Nat.two_pow_pos n
  have hNU : (2 : Nat) ^ n < U32 :=
    lt_of_le_of_lt (Nat.pow_le_pow_right (by norm_num) hn) (by norm_num [U32])
  have heq : q.tryPush v =
      (true, (q1.setSlot (pushed.length % 2 ^ n) v).push) := by
    simp [tryPush, ha]
  rw [heq]
  have hlen : (pushed ++ [v]).length = pushed.length + 1 := by simp
  refine ⟨rfl, ?_, ?_, ?_, ?_, ?_, ?_, ?_, ?_⟩
  · rw [hlen]; omega
  · rw [hlen]; omega
  · show (q1.write_idx + 1) &&& (2 ^ n - 1) = _
    rw [hw1, hInv.hw, mask_eq_mod, Nat.mod_add_mod, hlen]
  · show q1.read_idx = _
    rw [hr1, hInv.hr]
  · show (q1.free_write_cnt + U32 - 1) % U32 ≤ _
    rw [dec32 hfge (by omega), hlen]
    omega
  · intro j
    show (if j = q1.write_idx then true else q1.avail j) = true ↔ _
    rw [hav, hw1, hInv.hw, hlen]
    by_cases hj : j = pushed.length % 2 ^ n
    · rw [if_pos hj]
      constructor
      · intro _
        exact ⟨pushed.length, hInv.hRW, by omega, hj.symm⟩
      · intro _
        rfl
    · rw [if_neg hj, hInv.havail j]
      constructor
      · rintro ⟨k, hk1, hk2, hk3⟩
        exact ⟨k, hk1, by omega, hk3⟩
      · rintro ⟨k, hk1, hk2, hk3⟩
        refine ⟨k, hk1, ?_, hk3⟩
        rcases Nat.lt_succ_iff_lt_or_eq.mp hk2 with h | h
        · exact h
        · subst h
          exact absurd hk3.symm hj
  · intro k hk1 hk2
    rw [hlen] at hk2
    show (if k % 2 ^ n = pushed.length % 2 ^ n then some v
      else q1.data (k % 2 ^ n)) = _
    by_cases hkW : k = pushed.length
    · subst hkW
      rw [if_pos rfl]
      exact (List.getElem?_concat_length pushed v).symm
    · have hklt : k < pushed.length := by omega
      have hne : ¬ k % 2 ^ n = pushed.length % 2 ^ n := by
        intro hcontra
        have hge := mod_eq_add_of_le (P := 2 ^ n) hcontra.symm
          (le_of_lt hklt) (by omega)
        omega
      rw [if_neg hne, hd1, hInv.hdata k hk1 hklt]
      exact (List.getElem?_append_left hklt).symm
  · show popped = (pushed ++ [v]).take popped.length
    rw [List.take_append_eq_append_take,
      (by omega : popped.length - pushed.length = 0)]
    simpa using hInv.hpre

theorem tryPop_empty_opt {α : Type} {N : Nat} {q : SPSCQueueOPT α N}
    {pushed popped : List α} (hInv : Inv N q pushed popped)
    (heq : popped.length = pushed.length) :
    q.tryPop = (none, q) := by
  have hfa : q.avail q.read_idx = false := by
    rw [hInv.hr]
    cases hb : q.avail (popped.length % N)
    · rfl
    · obtain ⟨k, hk1, hk2, -⟩ := (hInv.havail _).mp hb
      omega
  have hfr : q.front = none := by
    simp [front, hfa]
  simp [tryPop, hfr]

theorem tryPop_nonempty_opt {α : Type} {n : Nat} (hn : n ≤ 31)
    {q : SPSCQueueOPT α (2 ^ n)} {pushed popped : List α}
    (hInv : Inv (2 ^ n) q pushed popped)
    (hlt : popped.length < pushed.length) :
    (q.tryPop).1 = pushed[popped.length]? ∧
      Inv (2 ^ n) (q.tryPop).2 pushed (popped ++ (q.tryPop).1.toList) := by
  have hN : 0 < 2 ^ n := Nat.two_pow_pos n
  have hcap := hInv.hcap
  have hfa : q.avail (popped.length % 2 ^ n) = true :=
    (hInv.havail _).mpr ⟨popped.length, Nat.le_refl _, hlt, rfl⟩
  have hfr : q.front = some (popped.length % 2 ^ n) := by
    simp [front, hInv.hr, hfa]
  have hval : q.data (popped.length % 2 ^ n) = pushed[popped.length]? :=
    hInv.hdata _ (Nat.le_refl _) hlt
  have heq : q.tryPop = (pushed[popped.length]?, q.pop) := by
    simp [tryPop, hfr, hval]
  rw [heq]
  have hx := List.getElem?_eq_getElem hlt
  refine ⟨rfl, ?_⟩
  rw [hx, Option.toList_some]
  have hlen2 : (popped ++ [pushed[popped.length]]).length =
      popped.length + 1 := by simp
  refine ⟨?_, ?_, ?_, ?_, ?_, ?_, ?_, ?_⟩
  · rw [hlen2]; omega
  · rw [hlen2]; omega
  · exact hInv.hw
  · show (q.read_idx + 1) &&& (2 ^ n - 1) = _
    rw [hInv.hr, mask_eq_mod, Nat.mod_add_mod, hlen2]
  · show q.free_write_cnt ≤ _
    rw [hlen2]
    have := hInv.hfree
    omega
  · intro j
    rw [hlen2]
    show (if j = q.read_idx then false else q.avail j) = true ↔ _
    rw [hInv.hr]
    by_cases hj : j = popped.length % 2 ^ n
    · rw [if_pos hj]
      constructor
      · intro h
        exact absurd h Bool.false_ne_true
      · rintro ⟨k, hk1, hk2, hk3⟩
        exfalso
        have hkmod : k % 2 ^ n = popped.length % 2 ^ n := by rw [hk3, hj]
        have hge := mod_eq_add_of_le hkmod (by omega) (by omega)
        omega
    · rw [if_neg hj, hInv.havail j]
      constructor
      · rintro ⟨k, hk1, hk2, hk3⟩
        refine ⟨k, ?_, hk2, hk3⟩
        rcases Nat.eq_or_lt_of_le hk1 with h | h
        · subst h
          exact absurd hk3.symm hj
        · omega
      · rintro ⟨k, hk1, hk2, hk3⟩
        exact ⟨k, by omega, hk2, hk3⟩
  · intro k hk1 hk2
    rw [hlen2] at hk1
    exact hInv.hdata k (by omega) hk2
  · show popped ++ [pushed[popped.length]] = pushed.take _
    rw [hlen2, List.take_succ, hx, Option.toList_some, ← hInv.hpre]

end SPSCQueueOPT

namespace SPSCQueueOPT

/-- Every interleaving of operations preserves the invariant, extending the
push/pop histories by exactly the values reported by the run. -/
theorem runAux_inv_opt {α : Type} {n : Nat} (hn : n ≤ 31) :
    ∀ (ops : List (Op α)) (q : SPSCQueueOPT α (2 ^ n))
      (pushed popped : List α), Inv (2 ^ n) q pushed popped →
      Inv (2 ^ n) (runAux q ops).1 (pushed ++ (runAux q ops).2.1)
        (popped ++ (runAux q ops).2.2)
  | [], q, pushed, popped, hInv => by
    simpa [runAux] using hInv
  | Op.push v :: ops, q, pushed, popped, hInv => by
    rcases lt_or_eq_of_le hInv.hcap with hlt | hfull
    · obtain ⟨hb, hInv2⟩ := tryPush_notfull_opt hn hInv hlt
      have IH := runAux_inv_opt hn ops (q.tryPush v).2 (pushed ++ [v]) popped hInv2
      simp only [runAux, hb, if_true]
      rw [← List.append_assoc]
      exact IH
    · obtain ⟨heq, hInv2⟩ := tryPush_full_opt hn hInv hfull
      have hb : (q.tryPush v).1 = false := by rw [heq]
      have IH := runAux_inv_opt hn ops (q.tryPush v).2 pushed popped hInv2
      simp only [runAux, hb, if_false]
      simpa using IH
  | Op.pop :: ops, q, pushed, popped, hInv => by
    rcases lt_or_eq_of_le hInv.hRW with hlt | heqRW
    · obtain ⟨hv, hInv2⟩ := tryPop_nonempty_opt hn hInv hlt
      have IH := runAux_inv_opt hn ops (q.tryPop).2
        pushed (popped ++ (q.tryPop).1.toList) hInv2
      simp only [runAux]
      rw [← List.append_assoc]
      exact IH
    · have heq : q.tryPop = (none, q) := tryPop_empty_opt hInv heqRW
      have IH := runAux_inv_opt hn ops (q.tryPop).2 pushed popped
        (by rw [heq]; exact hInv)
      simp only [runAux, heq]
      simpa [heq] using IH

/-- The invariant holds after any run from the freshly constructed queue. -/
theorem run_inv_opt {α : Type} {n : Nat} (hn : n ≤ 31) (ops : List (Op α)) :
    Inv (2 ^ n) (run α (2 ^ n) ops).1 (run α (2 ^ n) ops).2.1
      (run α (2 ^ n) ops).2.2 := by
  have h := runAux_inv_opt hn ops (init α (2 ^ n)) [] [] (Inv_init_opt α (2 ^ n))
  simpa [run] using h

/-- A run containing no consumer operation reads no value. -/
theorem runAux_no_pop_opt {α : Type} {N : Nat} :
    ∀ (ops : List (Op α)) (q : SPSCQueueOPT α N), Op.pop ∉ ops →
      (runAux q ops).2.2 = []
  | [], _, _ => rfl
  | Op.push v :: ops, q, h => by
    have h2 : Op.pop ∉ ops := fun hc => h (List.mem_cons_of_mem _ hc)
    simp [runAux, runAux_no_pop_opt ops (q.tryPush v).2 h2]
  | Op.pop :: ops, q, h => absurd (List.mem_cons_self _ _) h

/-- From any state that still has room for `k` more elements, `k` consecutive
`tryPush` calls all succeed. -/
theorem replicate_pushes_opt {α : Type} {n : Nat} (hn : n ≤ 31) (v : α) :
    ∀ (k : Nat) (q : SPSCQueueOPT α (2 ^ n)) (pushed popped : List α),
      Inv (2 ^ n) q pushed popped →
      pushed.length - popped.length + k ≤ 2 ^ n - 1 →
      (runAux q (List.replicate k (Op.push v))).2.1 = List.replicate k v
  | 0, _, _, _, _, _ => rfl
  | k + 1, q, pushed, popped, hInv, hk => by
    have hlt : pushed.length - popped.length < 2 ^ n - 1 := by omega
    obtain ⟨hb, hInv2⟩ := tryPush_notfull_opt hn hInv hlt
    have hRW := hInv.hRW
    have IH := replicate_pushes_opt hn v k (q.tryPush v).2 (pushed ++ [v]) popped
      hInv2 (by simp only [List.length_append, List.length_cons,
        List.length_nil]; omega)
    simp [List.replicate_succ, runAux, hb, IH]

end SPSCQueueOPT

/-! Claim theorems. -/

/-- C1: for every sequence of producer `tryPush` and consumer `tryPop`
operations interleaved in any order, and for both variants, the values read
by the successful `tryPop` calls equal, in order, a prefix of the values
written by the successful `tryPush` calls (here: the popped list is the
`take` of the pushed list at its own length). -/
theorem spsc_claim_C1 (n : Nat) (hn : n ≤ 31) (α : Type) (ops : List (Op α)) :
    (SPSCQueue.run α (2 ^ n) ops).2.2 =
      (SPSCQueue.run α (2 ^ n) ops).2.1.take
        (SPSCQueue.run α (2 ^ n) ops).2.2.length ∧
    (SPSCQueueOPT.run α (2 ^ n) ops).2.2 =
      (SPSCQueueOPT.run α (2 ^ n) ops).2.1.take
        (SPSCQueueOPT.run α (2 ^ n) ops).2.2.length :=
  ⟨(SPSCQueue.run_inv hn ops).hpre, (SPSCQueueOPT.run_inv_opt hn ops).hpre⟩

/-- Witness for C1 at `N = 4` on a concrete interleaving. -/
theorem spsc_claim_C1_witness :
    (SPSCQueue.run Nat (2 ^ 2) [Op.push 7, Op.push 8, Op.pop, Op.push 9,
        Op.pop, Op.pop, Op.pop]).2.2 =
      (SPSCQueue.run Nat (2 ^ 2) [Op.push 7, Op.push 8, Op.pop, Op.push 9,
        Op.pop, Op.pop, Op.pop]).2.1.take
        (SPSCQueue.run Nat (2 ^ 2) [Op.push 7, Op.push 8, Op.pop, Op.push 9,
          Op.pop, Op.pop, Op.pop]).2.2.length ∧
    (SPSCQueueOPT.run Nat (2 ^ 2) [Op.push 7, Op.push 8, Op.pop, Op.push 9,
        Op.pop, Op.pop, Op.pop]).2.2 =
      (SPSCQueueOPT.run Nat (2 ^ 2) [Op.push 7, Op.push 8, Op.pop, Op.push 9,
        Op.pop, Op.pop, Op.pop]).2.1.take
        (SPSCQueueOPT.run Nat (2 ^ 2) [Op.push 7, Op.push 8, Op.pop, Op.push 9,
          Op.pop, Op.pop, Op.pop]).2.2.length :=
  spsc_claim_C1 2 (by norm_num) Nat
    [Op.push 7, Op.push 8, Op.pop, Op.push 9, Op.pop, Op.pop, Op.pop]

/-- C4: in every state of `SPSCQueue` reachable by interleaved operations,
the 32-bit cursor difference `(write_idx - read_idx) mod 2^32` equals the
number of pushed-but-not-popped elements, and never exceeds `N`. -/
theorem spsc_claim_C4 (n : Nat) (hn : n ≤ 31) (α : Type) (ops : List (Op α)) :
    sub32 (SPSCQueue.run α (2 ^ n) ops).1.write_idx
        (SPSCQueue.run α (2 ^ n) ops).1.read_idx =
      (SPSCQueue.run α (2 ^ n) ops).2.1.length -
        (SPSCQueue.run α (2 ^ n) ops).2.2.length ∧
    (SPSCQueue.run α (2 ^ n) ops).2.1.length -
        (SPSCQueue.run α (2 ^ n) ops).2.2.length ≤ 2 ^ n := by
  have hInv := SPSCQueue.run_inv hn ops
  have hNU : (2 : Nat) ^ n < U32 :=
    lt_of_le_of_lt (Nat.pow_le_pow_right (by norm_num) hn) (by norm_num [U32])
  have hcap := hInv.hcap
  refine ⟨?_, hInv.hcap⟩
  rw [hInv.hw, hInv.hr]
  exact sub32_exact hInv.hRW (by omega)

/-- Witness for C4 at `N = 2` on a concrete interleaving. -/
theorem spsc_claim_C4_witness :
    sub32 (SPSCQueue.run Nat (2 ^ 1) [Op.push 3, Op.pop, Op.push 4,
        Op.push 5, Op.push 6]).1.write_idx
      (SPSCQueue.run Nat (2 ^ 1) [Op.push 3, Op.pop, Op.push 4,
        Op.push 5, Op.push 6]).1.read_idx =
      (SPSCQueue.run Nat (2 ^ 1) [Op.push 3, Op.pop, Op.push 4,
        Op.push 5, Op.push 6]).2.1.length -
      (SPSCQueue.run Nat (2 ^ 1) [Op.push 3, Op.pop, Op.push 4,
        Op.push 5, Op.push 6]).2.2.length ∧
    (SPSCQueue.run Nat (2 ^ 1) [Op.push 3, Op.pop, Op.push 4,
        Op.push 5, Op.push 6]).2.1.length -
      (SPSCQueue.run Nat (2 ^ 1) [Op.push 3, Op.pop, Op.push 4,
        Op.push 5, Op.push 6]).2.2.length ≤ 2 ^ 1 :=
  spsc_claim_C4 1 (by norm_num) Nat
    [Op.push 3, Op.pop, Op.push 4, Op.push 5, Op.push 6]

/-- C2: `SPSCQueue` with power-of-two capacity `N`: from the initial state,
`N` consecutive `tryPush` calls (each a successful `alloc` followed by
`push`) all succeed; the next `alloc` then returns null; after exactly one
pop the next `alloc` returns a non-null slot again. -/
theorem spsc_claim_C2 (n : Nat) (hn : n ≤ 31) (α : Type) (v : α) :
    (SPSCQueue.run α (2 ^ n)
        (List.replicate (2 ^ n) (Op.push v))).2.1.length = 2 ^ n ∧
    ((SPSCQueue.run α (2 ^ n)
        (List.replicate (2 ^ n) (Op.push v))).1.alloc).1 = none ∧
    ((SPSCQueue.run α (2 ^ n)
        (List.replicate (2 ^ n) (Op.push v))).1.tryPop).1.isSome = true ∧
    ((((SPSCQueue.run α (2 ^ n)
        (List.replicate (2 ^ n) (Op.push v))).1.tryPop).2.alloc).1).isSome
      = true := by
  have hN : 0 < 2 ^ n := Nat.two_pow_pos n
  have hInv := SPSCQueue.run_inv hn (List.replicate (2 ^ n) (Op.push v))
  have hpushed : (SPSCQueue.run α (2 ^ n)
      (List.replicate (2 ^ n) (Op.push v))).2.1 = List.replicate (2 ^ n) v :=
    SPSCQueue.replicate_pushes hn v (2 ^ n) (SPSCQueue.init α (2 ^ n)) [] []
      (SPSCQueue.Inv_init α (2 ^ n)) (by simp)
  have hnomem : Op.pop ∉ List.replicate (2 ^ n) (Op.push v) := by
    intro hmem
    rcases List.mem_replicate.mp hmem with ⟨-, h⟩
    exact Op.noConfusion h
  have hpops : (SPSCQueue.run α (2 ^ n)
      (List.replicate (2 ^ n) (Op.push v))).2.2 = [] :=
    SPSCQueue.runAux_no_pop _ _ hnomem
  have hW : (SPSCQueue.run α (2 ^ n)
      (List.replicate (2 ^ n) (Op.push v))).2.1.length = 2 ^ n := by
    rw [hpushed, List.length_replicate]
  have hR : (SPSCQueue.run α (2 ^ n)
      (List.replicate (2 ^ n) (Op.push v))).2.2.length = 0 := by
    rw [hpops]
    rfl
  have hlt : (SPSCQueue.run α (2 ^ n)
      (List.replicate (2 ^ n) (Op.push v))).2.2.length <
      (SPSCQueue.run α (2 ^ n)
        (List.replicate (2 ^ n) (Op.push v))).2.1.length := by omega
  refine ⟨hW, ?_, ?_, ?_⟩
  · rw [SPSCQueue.alloc_full hn hInv (by omega)]
  · rw [(SPSCQueue.tryPop_nonempty hn hInv hlt).1,
      List.getElem?_eq_getElem (by omega)]
    rfl
  · have hInv2 := (SPSCQueue.tryPop_nonempty hn hInv hlt).2
    rw [SPSCQueue.alloc_isSome_iff hn hInv2, List.length_append,
      (SPSCQueue.tryPop_nonempty hn hInv hlt).1,
      List.getElem?_eq_getElem (by omega), Option.toList_some]
    simp only [List.length_cons, List.length_nil]
    omega

/-- Witness for C2 at `N = 2`. -/
theorem spsc_claim_C2_witness :
    (SPSCQueue.run Nat (2 ^ 1)
        (List.replicate (2 ^ 1) (Op.push 5))).2.1.length = 2 ^ 1 ∧
    ((SPSCQueue.run Nat (2 ^ 1)
        (List.replicate (2 ^ 1) (Op.push 5))).1.alloc).1 = none ∧
    ((SPSCQueue.run Nat (2 ^ 1)
        (List.replicate (2 ^ 1) (Op.push 5))).1.tryPop).1.isSome = true ∧
    ((((SPSCQueue.run Nat (2 ^ 1)
        (List.replicate (2 ^ 1) (Op.push 5))).1.tryPop).2.alloc).1).isSome
      = true :=
  spsc_claim_C2 1 (by norm_num) Nat 5

/-- C3: `SPSCQueueOPT` with power-of-two capacity `N ≥ 2`: from the initial
state, `N - 1` consecutive `tryPush` calls all succeed and the next `alloc`
returns null; no operation sequence without pops ever exceeds `N - 1`
successful pushes (usable capacity is `N - 1`); and after one pop exactly one
more push is permitted before `alloc` returns null again. -/
theorem spsc_claim_C3 (n : Nat) (hn : n ≤ 31) (h2 : 2 ≤ 2 ^ n) (α : Type)
    (v w : α) (ops : List (Op α)) (hops : Op.pop ∉ ops) :
    (SPSCQueueOPT.run α (2 ^ n)
        (List.replicate (2 ^ n - 1) (Op.push v))).2.1.length = 2 ^ n - 1 ∧
    ((SPSCQueueOPT.run α (2 ^ n)
        (List.replicate (2 ^ n - 1) (Op.push v))).1.alloc).1 = none ∧
    (SPSCQueueOPT.run α (2 ^ n) ops).2.1.length ≤ 2 ^ n - 1 ∧
    ((SPSCQueueOPT.run α (2 ^ n)
        (List.replicate (2 ^ n - 1) (Op.push v))).1.tryPop).1.isSome = true ∧
    (((SPSCQueueOPT.run α (2 ^ n)
        (List.replicate (2 ^ n - 1) (Op.push v))).1.tryPop).2.tryPush w).1
      = true ∧
    (((((SPSCQueueOPT.run α (2 ^ n)
        (List.replicate (2 ^ n - 1) (Op.push v))).1.tryPop).2.tryPush
          w).2.alloc).1) = none := by
  have hN : 0 < 2 ^ n := Nat.two_pow_pos n
  have hInv := SPSCQueueOPT.run_inv_opt hn (List.replicate (2 ^ n - 1) (Op.push v))
  have hpushed : (SPSCQueueOPT.run α (2 ^ n)
      (List.replicate (2 ^ n - 1) (Op.push v))).2.1 =
      List.replicate (2 ^ n - 1) v :=
    SPSCQueueOPT.replicate_pushes_opt hn v (2 ^ n - 1)
      (SPSCQueueOPT.init α (2 ^ n)) [] []
      (SPSCQueueOPT.Inv_init_opt α (2 ^ n)) (by simp)
  have hnomem : Op.pop ∉ List.replicate (2 ^ n - 1) (Op.push v) := by
    intro hmem
    rcases List.mem_replicate.mp hmem with ⟨-, h⟩
    exact Op.noConfusion h
  have hpops : (SPSCQueueOPT.run α (2 ^ n)
      (List.replicate (2 ^ n - 1) (Op.push v))).2.2 = [] :=
    SPSCQueueOPT.runAux_no_pop_opt _ _ hnomem
  have hW : (SPSCQueueOPT.run α (2 ^ n)
      (List.replicate (2 ^ n - 1) (Op.push v))).2.1.length = 2 ^ n - 1 := by
    rw [hpushed, List.length_replicate]
  have hR : (SPSCQueueOPT.run α (2 ^ n)
      (List.replicate (2 ^ n - 1) (Op.push v))).2.2.length = 0 := by
    rw [hpops]
    rfl
  have hlt : (SPSCQueueOPT.run α (2 ^ n)
      (List.replicate (2 ^ n - 1) (Op.push v))).2.2.length <
      (SPSCQueueOPT.run α (2 ^ n)
        (List.replicate (2 ^ n - 1) (Op.push v))).2.1.length := by omega
  have hInv2 := (SPSCQueueOPT.tryPop_nonempty_opt hn hInv hlt).2
  have hR2 : ((SPSCQueueOPT.run α (2 ^ n)
      (List.replicate (2 ^ n - 1) (Op.push v))).2.2 ++
      ((SPSCQueueOPT.run α (2 ^ n)
        (List.replicate (2 ^ n - 1) (Op.push v))).1.tryPop).1.toList).length
      = 1 := by
    rw [List.length_append, (SPSCQueueOPT.tryPop_nonempty_opt hn hInv hlt).1,
      List.getElem?_eq_getElem (by omega), Option.toList_some]
    simp only [List.length_cons, List.length_nil]
    omega
  have hlt2 : (SPSCQueueOPT.run α (2 ^ n)
      (List.replicate (2 ^ n - 1) (Op.push v))).2.1.length -
      ((SPSCQueueOPT.run α (2 ^ n)
        (List.replicate (2 ^ n - 1) (Op.push v))).2.2 ++
        ((SPSCQueueOPT.run α (2 ^ n)
          (List.replicate (2 ^ n - 1) (Op.push v))).1.tryPop).1.toList).length
      < 2 ^ n - 1 := by omega
  have hpush2 := SPSCQueueOPT.tryPush_notfull_opt (v := w) hn hInv2 hlt2
  refine ⟨hW, ?_, ?_, ?_, hpush2.1, ?_⟩
  · rw [(SPSCQueueOPT.alloc_spec hn hInv).1 (by omega)]
  · have hInvc := SPSCQueueOPT.run_inv_opt hn ops
    have hcap := hInvc.hcap
    have hRc : (SPSCQueueOPT.run α (2 ^ n) ops).2.2.length = 0 := by
      rw [show (SPSCQueueOPT.run α (2 ^ n) ops).2.2 = [] from
        SPSCQueueOPT.runAux_no_pop_opt ops _ hops]
      rfl
    omega
  · rw [(SPSCQueueOPT.tryPop_nonempty_opt hn hInv hlt).1,
      List.getElem?_eq_getElem (by omega)]
    rfl
  · have hInv3 := hpush2.2
    rw [(SPSCQueueOPT.alloc_spec hn hInv3).1 ?_]
    rw [List.length_append, hR2]
    simp only [List.length_cons, List.length_nil]
    omega

/-- Witness for C3 at `N = 4` (scenario B of the specification). -/
theorem spsc_claim_C3_witness :
    (SPSCQueueOPT.run Nat (2 ^ 2)
        (List.replicate (2 ^ 2 - 1) (Op.push 1))).2.1.length = 2 ^ 2 - 1 ∧
    ((SPSCQueueOPT.run Nat (2 ^ 2)
        (List.replicate (2 ^ 2 - 1) (Op.push 1))).1.alloc).1 = none ∧
    (SPSCQueueOPT.run Nat (2 ^ 2)
        [Op.push 1, Op.push 2, Op.push 3, Op.push 4]).2.1.length
      ≤ 2 ^ 2 - 1 ∧
    ((SPSCQueueOPT.run Nat (2 ^ 2)
        (List.replicate (2 ^ 2 - 1) (Op.push 1))).1.tryPop).1.isSome = true ∧
    (((SPSCQueueOPT.run Nat (2 ^ 2)
        (List.replicate (2 ^ 2 - 1) (Op.push 1))).1.tryPop).2.tryPush 9).1
      = true ∧
    (((((SPSCQueueOPT.run Nat (2 ^ 2)
        (List.replicate (2 ^ 2 - 1) (Op.push 1))).1.tryPop).2.tryPush
          9).2.alloc).1) = none :=
  spsc_claim_C3 2 (by norm_num) (by norm_num) Nat 1 9
    [Op.push 1, Op.push 2, Op.push 3, Op.push 4] (by decide)

/-- C5 counterexample: in `SPSCQueueOPT` with `N = 2`, after
`push 10, pop, push 11` the reachable state has local read index
`N - 1 = 1` and a successful `front`; its `pop` stores
`(read_idx + 1) & (N - 1) = 0` into ReadCursor, not `read_idx + 1 = 2`, so a
successful release does not store `read + 1` nor advance the cursor by
exactly one. -/
theorem spsc_claim_C5_counterexample :
    (SPSCQueueOPT.run Nat 2 [Op.push 10, Op.pop, Op.push 11]).1.read_idx
        = 2 - 1 ∧
    ((SPSCQueueOPT.run Nat 2
        [Op.push 10, Op.pop, Op.push 11]).1.front).isSome = true ∧
    ¬ ((SPSCQueueOPT.run Nat 2
        [Op.push 10, Op.pop, Op.push 11]).1.pop).read_idx =
      (SPSCQueueOPT.run Nat 2 [Op.push 10, Op.pop, Op.push 11]).1.read_idx
        + 1 := by
  decide

/-- C5 (amended): in every reachable `SPSCQueueOPT` state with a successful
`front`, `pop` lowers the current slot's avail flag and stores
`(read + 1) & (N - 1)` — that is, `read + 1` reduced modulo `N` — into
ReadCursor: the cursor advances by one modulo `N`, wrapping to `0` when the
local read index is `N - 1`. -/
theorem spsc_claim_C5 (n : Nat) (hn : n ≤ 31) (α : Type) (ops : List (Op α))
    (hfr : (((SPSCQueueOPT.run α (2 ^ n) ops).1.front)).isSome = true) :
    ((SPSCQueueOPT.run α (2 ^ n) ops).1.pop).avail
        ((SPSCQueueOPT.run α (2 ^ n) ops).1.read_idx) = false ∧
    ((SPSCQueueOPT.run α (2 ^ n) ops).1.pop).read_idx =
      ((SPSCQueueOPT.run α (2 ^ n) ops).1.read_idx + 1) % 2 ^ n := by
  constructor
  · show (if (SPSCQueueOPT.run α (2 ^ n) ops).1.read_idx =
        (SPSCQueueOPT.run α (2 ^ n) ops).1.read_idx then false
      else (SPSCQueueOPT.run α (2 ^ n) ops).1.avail
        ((SPSCQueueOPT.run α (2 ^ n) ops).1.read_idx)) = false
    rw [if_pos rfl]
  · show ((SPSCQueueOPT.run α (2 ^ n) ops).1.read_idx + 1) &&& (2 ^ n - 1) = _
    rw [mask_eq_mod]

/-- Witness for the amended C5 at `N = 2`, at the wrap-around state. -/
theorem spsc_claim_C5_witness :
    ((SPSCQueueOPT.run Nat (2 ^ 1)
        [Op.push 10, Op.pop, Op.push 11]).1.pop).avail
      ((SPSCQueueOPT.run Nat (2 ^ 1)
        [Op.push 10, Op.pop, Op.push 11]).1.read_idx) = false ∧
    ((SPSCQueueOPT.run Nat (2 ^ 1)
        [Op.push 10, Op.pop, Op.push 11]).1.pop).read_idx =
      ((SPSCQueueOPT.run Nat (2 ^ 1)
        [Op.push 10, Op.pop, Op.push 11]).1.read_idx + 1) % 2 ^ 1 :=
  spsc_claim_C5 1 (by norm_num) Nat [Op.push 10, Op.pop, Op.push 11]
    (by decide)

/-- At the degenerate capacity `N = 1`, the free-count recomputation of
`SPSCQueueOPT::alloc` yields zero, so `alloc` returns null and stores the
zero it started from: the state is unchanged. -/
theorem allocOPT_one_eq {α : Type} :
    (SPSCQueueOPT.init α 1).alloc = (none, SPSCQueueOPT.init α 1) := by
  unfold SPSCQueueOPT.alloc
  have hx : ((sub32 (SPSCQueueOPT.init α 1).read_idx
      (SPSCQueueOPT.init α 1).write_idx + (1 - 1)) % U32) &&& (1 - 1)
      = 0 := by
    rw [show (1 : Nat) - 1 = 2 ^ 0 - 1 from rfl, mask_eq_mod]
    exact Nat.mod_one _
  rw [if_pos (show (SPSCQueueOPT.init α 1).free_write_cnt = 0 from rfl),
    if_pos hx, hx]
  rfl

/-- In `SPSCQueueOPT` at capacity `2 ^ 0 = 1`, no operation ever succeeds:
every run pushes and pops nothing. -/
theorem runOPT_one_empty {α : Type} :
    ∀ (ops : List (Op α)) (q : SPSCQueueOPT α (2 ^ 0))
      (pushed popped : List α), SPSCQueueOPT.Inv (2 ^ 0) q pushed popped →
      (SPSCQueueOPT.runAux q ops).2.1 = [] ∧
        (SPSCQueueOPT.runAux q ops).2.2 = []
  | [], _, _, _, _ => ⟨rfl, rfl⟩
  | Op.push v :: ops, q, pushed, popped, hInv => by
    have hfull : pushed.length - popped.length = 2 ^ 0 - 1 := by
      have := hInv.hcap
      omega
    obtain ⟨heq, hInv2⟩ := SPSCQueueOPT.tryPush_full_opt (by norm_num) hInv hfull
    have hb : (q.tryPush v).1 = false := by rw [heq]
    have IH := runOPT_one_empty ops (q.tryPush v).2 pushed popped hInv2
    simp only [SPSCQueueOPT.runAux, hb, if_false]
    simpa using IH
  | Op.pop :: ops, q, pushed, popped, hInv => by
    have heqRW : popped.length = pushed.length := by
      have h1 := hInv.hcap
      have h2 := hInv.hRW
      omega
    have heq : q.tryPop = (none, q) := SPSCQueueOPT.tryPop_empty_opt hInv heqRW
    have IH := runOPT_one_empty ops (q.tryPop).2 pushed popped
      (by rw [heq]; exact hInv)
    simp only [SPSCQueueOPT.runAux, heq]
    simpa [heq] using IH

/-- C6: `SPSCQueueOPT` instantiated with `N = 1`: the free-count cache
initializes to zero, the recomputation `(read - write + N - 1) & MASK` also
yields zero, and every `alloc` — the very first and every later one — returns
null: no operation sequence ever pushes or pops any element. -/
theorem spsc_claim_C6 (α : Type) (ops : List (Op α)) :
    (SPSCQueueOPT.init α 1).free_write_cnt = 0 ∧
    ((sub32 (SPSCQueueOPT.init α 1).read_idx
        (SPSCQueueOPT.init α 1).write_idx + (1 - 1)) % U32) &&& (1 - 1)
      = 0 ∧
    (SPSCQueueOPT.init α 1).alloc = (none, SPSCQueueOPT.init α 1) ∧
    (SPSCQueueOPT.run α 1 ops).2.1 = [] ∧
    (SPSCQueueOPT.run α 1 ops).2.2 = [] ∧
    ((SPSCQueueOPT.run α 1 ops).1.alloc).1 = none := by
  have hx : ((sub32 (SPSCQueueOPT.init α 1).read_idx
      (SPSCQueueOPT.init α 1).write_idx + (1 - 1)) % U32) &&& (1 - 1)
      = 0 := by
    rw [show (1 : Nat) - 1 = 2 ^ 0 - 1 from rfl, mask_eq_mod]
    exact Nat.mod_one _
  have hInv0 := SPSCQueueOPT.run_inv_opt (α := α) (n := 0) (by norm_num) ops
  have hemp := runOPT_one_empty ops (SPSCQueueOPT.init α (2 ^ 0)) [] []
    (SPSCQueueOPT.Inv_init_opt α (2 ^ 0))
  refine ⟨rfl, hx, allocOPT_one_eq, hemp.1, hemp.2, ?_⟩
  cases ha : ((SPSCQueueOPT.run α 1 ops).1.alloc).1 with
  | none => rfl
  | some p =>
    exfalso
    have hs : (((SPSCQueueOPT.run α (2 ^ 0) ops).1.alloc).1).isSome
        = true := by
      rw [show ((SPSCQueueOPT.run α (2 ^ 0) ops).1.alloc).1 = some p from ha]
      rfl
    have hlt := (SPSCQueueOPT.alloc_isSome_iff_opt (by norm_num) hInv0).mp hs
    omega

/-- `SPSCQueue::alloc` never changes the cursors or the slot array (only the
producer-local cache may be refreshed). -/
theorem SPSCQueue.alloc_snd_fields {α : Type} {N : Nat} {q : SPSCQueue α N}
    {o : Option Nat} {q1 : SPSCQueue α N} (h : q.alloc = (o, q1)) :
    q1.write_idx = q.write_idx ∧ q1.read_idx = q.read_idx ∧
      q1.data = q.data := by
  have h2 : (q.alloc).2 = q1 := by rw [h]
  rw [← h2]
  unfold alloc
  split
  · split
    · exact ⟨rfl, rfl, rfl⟩
    · exact ⟨rfl, rfl, rfl⟩
  · exact ⟨rfl, rfl, rfl⟩

/-- `SPSCQueueOPT::alloc` never changes the cursors, the flags or the slot
array (only the free-count cache may be refreshed). -/
theorem SPSCQueueOPT.alloc_snd_fields_opt {α : Type} {N : Nat}
    {q : SPSCQueueOPT α N} {o : Option Nat} {q1 : SPSCQueueOPT α N}
    (h : q.alloc = (o, q1)) :
    q1.write_idx = q.write_idx ∧ q1.read_idx = q.read_idx ∧
      q1.data = q.data ∧ q1.avail = q.avail := by
  have h2 : (q.alloc).2 = q1 := by rw [h]
  rw [← h2]
  unfold alloc
  split
  · split
    · exact ⟨rfl, rfl, rfl, rfl⟩
    · exact ⟨rfl, rfl, rfl, rfl⟩
  · exact ⟨rfl, rfl, rfl, rfl⟩

/-- C7: for both variants, the `tryPush`/`tryPop` wrappers return false
exactly when `alloc`/`front` yields null; the callback is invoked exactly on
the successful reservations — once, with the slot handed out by
`alloc`/`front` — and the final state applies `push`/`pop` only after the
callback's write/read took effect. -/
theorem spsc_claim_C7 (α : Type) (NI NO : Nat) (qI : SPSCQueue α NI)
    (qO : SPSCQueueOPT α NO) (w1 w2 : Option α → α) :
    ((SPSCQueue.tryPushW w1 qI).1 = ((qI.alloc).1).isSome ∧
      (SPSCQueue.tryPushW w1 qI).2.1 = ((qI.alloc).1).toList ∧
      (SPSCQueue.tryPushW w1 qI).2.2 = ((qI.alloc).1).elim (qI.alloc).2
        (fun p => (((qI.alloc).2).setSlot p
          (w1 ((qI.alloc).2.data p))).push)) ∧
    ((SPSCQueue.tryPopW qI).1 = (qI.front).isSome ∧
      (SPSCQueue.tryPopW qI).2.1 =
        ((qI.front).map (fun p => (p, qI.data p))).toList ∧
      (SPSCQueue.tryPopW qI).2.2 = (qI.front).elim qI (fun _ => qI.pop)) ∧
    ((SPSCQueueOPT.tryPushW w2 qO).1 = ((qO.alloc).1).isSome ∧
      (SPSCQueueOPT.tryPushW w2 qO).2.1 = ((qO.alloc).1).toList ∧
      (SPSCQueueOPT.tryPushW w2 qO).2.2 = ((qO.alloc).1).elim (qO.alloc).2
        (fun p => (((qO.alloc).2).setSlot p
          (w2 ((qO.alloc).2.data p))).push)) ∧
    ((SPSCQueueOPT.tryPopW qO).1 = (qO.front).isSome ∧
      (SPSCQueueOPT.tryPopW qO).2.1 =
        ((qO.front).map (fun p => (p, qO.data p))).toList ∧
      (SPSCQueueOPT.tryPopW qO).2.2 =
        (qO.front).elim qO (fun _ => qO.pop)) := by
  refine ⟨?_, ?_, ?_, ?_⟩
  · rcases hI : qI.alloc with ⟨oI, qI1⟩
    cases oI <;> simp [SPSCQueue.tryPushW, hI, Option.elim]
  · cases hf : qI.front <;> simp [SPSCQueue.tryPopW, hf, Option.elim]
  · rcases hO : qO.alloc with ⟨oO, qO1⟩
    cases oO <;> simp [SPSCQueueOPT.tryPushW, hO, Option.elim]
  · cases hf : qO.front <;> simp [SPSCQueueOPT.tryPopW, hf, Option.elim]

/-- C8: for both variants, `blockPush` spins on `tryPush`; from any state in
which `alloc` would return a non-null slot, it terminates after exactly one
`tryPush` call, which succeeds and publishes one element, leaving the state
`tryPush` produces. -/
theorem spsc_claim_C8 (α : Type) (NI NO : Nat) (qI : SPSCQueue α NI)
    (qO : SPSCQueueOPT α NO) (v w : α) (fI fO : Nat)
    (hI : ((qI.alloc).1).isSome = true)
    (hO : ((qO.alloc).1).isSome = true) :
    SPSCQueue.blockPushFuel (fI + 1) v qI = some ((qI.tryPush v).2, 1) ∧
    (qI.tryPush v).1 = true ∧
    SPSCQueueOPT.blockPushFuel (fO + 1) w qO = some ((qO.tryPush w).2, 1) ∧
    (qO.tryPush w).1 = true := by
  have htpI : (qI.tryPush v).1 = true := by
    rcases hIa : qI.alloc with ⟨oI, qI1⟩
    cases oI
    · rw [hIa] at hI
      simp at hI
    · unfold SPSCQueue.tryPush
      simp only [hIa]
  have htpO : (qO.tryPush w).1 = true := by
    rcases hOa : qO.alloc with ⟨oO, qO1⟩
    cases oO
    · rw [hOa] at hO
      simp at hO
    · unfold SPSCQueueOPT.tryPush
      simp only [hOa]
  have hbI : SPSCQueue.blockPushFuel (fI + 1) v qI =
      some ((qI.tryPush v).2, 1) := by
    rcases h : qI.tryPush v with ⟨b, q2⟩
    have hb : b = true := by
      rw [h] at htpI
      exact htpI
    subst hb
    unfold SPSCQueue.blockPushFuel
    simp only [h]
  have hbO : SPSCQueueOPT.blockPushFuel (fO + 1) w qO =
      some ((qO.tryPush w).2, 1) := by
    rcases h : qO.tryPush w with ⟨b, q2⟩
    have hb : b = true := by
      rw [h] at htpO
      exact htpO
    subst hb
    unfold SPSCQueueOPT.blockPushFuel
    simp only [h]
  exact ⟨hbI, htpI, hbO, htpO⟩

/-- Witness for C8: both queues freshly constructed (capacity 1 for the
cursor variant, 2 for the flag variant), fuel 1. -/
theorem spsc_claim_C8_witness :
    SPSCQueue.blockPushFuel (0 + 1) 3 (SPSCQueue.init Nat 1) =
      some ((SPSCQueue.tryPush 3 (SPSCQueue.init Nat 1)).2, 1) ∧
    (SPSCQueue.tryPush 3 (SPSCQueue.init Nat 1)).1 = true ∧
    SPSCQueueOPT.blockPushFuel (0 + 1) 4 (SPSCQueueOPT.init Nat 2) =
      some ((SPSCQueueOPT.tryPush 4 (SPSCQueueOPT.init Nat 2)).2, 1) ∧
    (SPSCQueueOPT.tryPush 4 (SPSCQueueOPT.init Nat 2)).1 = true :=
  spsc_claim_C8 Nat 1 2 (SPSCQueue.init Nat 1) (SPSCQueueOPT.init Nat 2)
    3 4 0 0 (by decide) (by decide)

/-- C9: for both variants, a failed `tryPush` leaves the cursors, the slot
array and (for the flag variant) every avail flag unchanged — only the
producer-local cache may be refreshed — and a failed `tryPop` leaves the
entire state unchanged. -/
theorem spsc_claim_C9 (α : Type) (NI NO : Nat) (qI qI2 : SPSCQueue α NI)
    (qO qO2 : SPSCQueueOPT α NO) (w1 w2 : Option α → α)
    (h1 : (SPSCQueue.tryPushW w1 qI).1 = false)
    (h2 : (SPSCQueue.tryPopW qI2).1 = false)
    (h3 : (SPSCQueueOPT.tryPushW w2 qO).1 = false)
    (h4 : (SPSCQueueOPT.tryPopW qO2).1 = false) :
    ((SPSCQueue.tryPushW w1 qI).2.2.write_idx = qI.write_idx ∧
      (SPSCQueue.tryPushW w1 qI).2.2.read_idx = qI.read_idx ∧
      (SPSCQueue.tryPushW w1 qI).2.2.data = qI.data) ∧
    (SPSCQueue.tryPopW qI2).2.2 = qI2 ∧
    ((SPSCQueueOPT.tryPushW w2 qO).2.2.write_idx = qO.write_idx ∧
      (SPSCQueueOPT.tryPushW w2 qO).2.2.read_idx = qO.read_idx ∧
      (SPSCQueueOPT.tryPushW w2 qO).2.2.data = qO.data ∧
      (SPSCQueueOPT.tryPushW w2 qO).2.2.avail = qO.avail) ∧
    (SPSCQueueOPT.tryPopW qO2).2.2 = qO2 := by
  refine ⟨?_, ?_, ?_, ?_⟩
  · rcases hIa : qI.alloc with ⟨oI, qI1⟩
    have hf := SPSCQueue.alloc_snd_fields hIa
    cases oI
    · have he : SPSCQueue.tryPushW w1 qI = (false, [], qI1) := by
        unfold SPSCQueue.tryPushW
        simp only [hIa]
      rw [he]
      exact hf
    · have he : (SPSCQueue.tryPushW w1 qI).1 = true := by
        unfold SPSCQueue.tryPushW
        simp only [hIa]
      rw [he] at h1
      exact absurd h1 (by decide)
  · cases hfr : qI2.front
    · have he : SPSCQueue.tryPopW qI2 = (false, [], qI2) := by
        unfold SPSCQueue.tryPopW
        simp only [hfr]
      rw [he]
    · have he : (SPSCQueue.tryPopW qI2).1 = true := by
        unfold SPSCQueue.tryPopW
        simp only [hfr]
      rw [he] at h2
      exact absurd h2 (by decide)
  · rcases hOa : qO.alloc with ⟨oO, qO1⟩
    have hf := SPSCQueueOPT.alloc_snd_fields_opt hOa
    cases oO
    · have he : SPSCQueueOPT.tryPushW w2 qO = (false, [], qO1) := by
        unfold SPSCQueueOPT.tryPushW
        simp only [hOa]
      rw [he]
      exact hf
    · have he : (SPSCQueueOPT.tryPushW w2 qO).1 = true := by
        unfold SPSCQueueOPT.tryPushW
        simp only [hOa]
      rw [he] at h3
      exact absurd h3 (by decide)
  · cases hfr : qO2.front
    · have he : SPSCQueueOPT.tryPopW qO2 = (false, [], qO2) := by
        unfold SPSCQueueOPT.tryPopW
        simp only [hfr]
      rw [he]
    · have he : (SPSCQueueOPT.tryPopW qO2).1 = true := by
        unfold SPSCQueueOPT.tryPopW
        simp only [hfr]
      rw [he] at h4
      exact absurd h4 (by decide)

/-- Witness for C9: a full cursor queue (one element at capacity 1), an empty
cursor queue, and the capacity-1 flag queue, where pushes and pops fail. -/
theorem spsc_claim_C9_witness :
    ((SPSCQueue.tryPushW (fun _ => 5)
        { data := fun _ => none, write_idx := 1, read_idx_cach := 0,
          read_idx := 0 : SPSCQueue Nat 1 }).2.2.write_idx =
      ({ data := fun _ => none, write_idx := 1, read_idx_cach := 0,
          read_idx := 0 : SPSCQueue Nat 1 }).write_idx ∧
      (SPSCQueue.tryPushW (fun _ => 5)
        { data := fun _ => none, write_idx := 1, read_idx_cach := 0,
          read_idx := 0 : SPSCQueue Nat 1 }).2.2.read_idx =
      ({ data := fun _ => none, write_idx := 1, read_idx_cach := 0,
          read_idx := 0 : SPSCQueue Nat 1 }).read_idx ∧
      (SPSCQueue.tryPushW (fun _ => 5)
        { data := fun _ => none, write_idx := 1, read_idx_cach := 0,
          read_idx := 0 : SPSCQueue Nat 1 }).2.2.data =
      ({ data := fun _ => none, write_idx := 1, read_idx_cach := 0,
          read_idx := 0 : SPSCQueue Nat 1 }).data) ∧
    (SPSCQueue.tryPopW (SPSCQueue.init Nat 1)).2.2 = SPSCQueue.init Nat 1 ∧
    ((SPSCQueueOPT.tryPushW (fun _ => 5)
        (SPSCQueueOPT.init Nat 1)).2.2.write_idx =
      (SPSCQueueOPT.init Nat 1).write_idx ∧
      (SPSCQueueOPT.tryPushW (fun _ => 5)
        (SPSCQueueOPT.init Nat 1)).2.2.read_idx =
      (SPSCQueueOPT.init Nat 1).read_idx ∧
      (SPSCQueueOPT.tryPushW (fun _ => 5)
        (SPSCQueueOPT.init Nat 1)).2.2.data =
      (SPSCQueueOPT.init Nat 1).data ∧
      (SPSCQueueOPT.tryPushW (fun _ => 5)
        (SPSCQueueOPT.init Nat 1)).2.2.avail =
      (SPSCQueueOPT.init Nat 1).avail) ∧
    (SPSCQueueOPT.tryPopW (SPSCQueueOPT.init Nat 1)).2.2 =
      SPSCQueueOPT.init Nat 1 :=
  spsc_claim_C9 Nat 1 1
    { data := fun _ => none, write_idx := 1, read_idx_cach := 0,
      read_idx := 0 }
    (SPSCQueue.init Nat 1) (SPSCQueueOPT.init Nat 1)
    (SPSCQueueOPT.init Nat 1) (fun _ => 5) (fun _ => 5)
    (by decide) (by decide) (by decide) (by decide)

/-- `SPSCQueueOPT::alloc` returns either null or the current (masked) write
index. -/
theorem SPSCQueueOPT.alloc_fst_cases {α : Type} {N : Nat}
    (q : SPSCQueueOPT α N) :
    (q.alloc).1 = none ∨ (q.alloc).1 = some q.write_idx := by
  unfold alloc
  split
  · split
    · exact Or.inl rfl
    · exact Or.inr rfl
  · exact Or.inr rfl

/-- `SPSCQueueOPT::front` returns either null or the current (masked) read
index. -/
theorem SPSCQueueOPT.front_cases {α : Type} {N : Nat}
    (q : SPSCQueueOPT α N) :
    q.front = none ∨ q.front = some q.read_idx := by
  unfold front
  split
  · exact Or.inr rfl
  · exact Or.inl rfl

/-- `tryPush` keeps both masked cursors below `N`. -/
theorem SPSCQueueOPT.tryPush_bounds {α : Type} {N : Nat} (hN : 0 < N)
    (v : α) (q : SPSCQueueOPT α N) (hw : q.write_idx < N)
    (hr : q.read_idx < N) :
    (q.tryPush v).2.write_idx < N ∧ (q.tryPush v).2.read_idx < N := by
  rcases ha : q.alloc with ⟨o, q1⟩
  have hf := alloc_snd_fields_opt ha
  cases o
  · have he : q.tryPush v = (false, q1) := by
      unfold tryPush
      simp only [ha]
    rw [he]
    exact ⟨hf.1.symm ▸ hw, hf.2.1.symm ▸ hr⟩
  · have he : q.tryPush v = (true, (q1.setSlot ‹Nat› v).push) := by
      unfold tryPush
      simp only [ha]
    rw [he]
    constructor
    · show (q1.write_idx + 1) &&& (N - 1) < N
      exact lt_of_le_of_lt Nat.and_le_right (by omega)
    · show q1.read_idx < N
      rw [hf.2.1]
      exact hr

/-- `tryPop` keeps both masked cursors below `N`. -/
theorem SPSCQueueOPT.tryPop_bounds {α : Type} {N : Nat} (hN : 0 < N)
    (q : SPSCQueueOPT α N) (hw : q.write_idx < N) (hr : q.read_idx < N) :
    (q.tryPop).2.write_idx < N ∧ (q.tryPop).2.read_idx < N := by
  cases hfr : q.front
  · have he : q.tryPop = (none, q) := by
      unfold tryPop
      simp only [hfr]
    rw [he]
    exact ⟨hw, hr⟩
  · have he : q.tryPop = (q.data ‹Nat›, q.pop) := by
      unfold tryPop
      simp only [hfr]
    rw [he]
    refine ⟨hw, ?_⟩
    show (q.read_idx + 1) &&& (N - 1) < N
    exact lt_of_le_of_lt Nat.and_le_right (by omega)

/-- Both masked cursors of `SPSCQueueOPT` stay below `N` along every run. -/
theorem SPSCQueueOPT.runAux_bounds {α : Type} {N : Nat} (hN : 0 < N) :
    ∀ (ops : List (Op α)) (q : SPSCQueueOPT α N), q.write_idx < N →
      q.read_idx < N →
      (runAux q ops).1.write_idx < N ∧ (runAux q ops).1.read_idx < N
  | [], _, hw, hr => ⟨hw, hr⟩
  | Op.push v :: ops, q, hw, hr => by
    have h1 := tryPush_bounds hN v q hw hr
    have IH := runAux_bounds hN ops (q.tryPush v).2 h1.1 h1.2
    simpa [runAux] using IH
  | Op.pop :: ops, q, hw, hr => by
    have h1 := tryPop_bounds hN q hw hr
    have IH := runAux_bounds hN ops (q.tryPop).2 h1.1 h1.2
    simpa [runAux] using IH

/-- C10: in every reachable `SPSCQueueOPT` state, `write_idx < N` and
`read_idx < N` (every cursor update is masked with `N - 1`), so the array
accesses `blk[write_idx]` and `blk[read_idx]` made by `alloc`, `push`,
`front` and `pop` — whose slot indices `alloc`/`front` hand out — stay within
the `N`-element block array. -/
theorem spsc_claim_C10 (α : Type) (N : Nat) (hN : 0 < N)
    (ops : List (Op α)) :
    (SPSCQueueOPT.run α N ops).1.write_idx < N ∧
    (SPSCQueueOPT.run α N ops).1.read_idx < N ∧
    (((SPSCQueueOPT.run α N ops).1.alloc).1.getD 0) < N ∧
    (((SPSCQueueOPT.run α N ops).1.front).getD 0) < N := by
  have hb := SPSCQueueOPT.runAux_bounds hN ops (SPSCQueueOPT.init α N) hN hN
  refine ⟨hb.1, hb.2, ?_, ?_⟩
  · rcases SPSCQueueOPT.alloc_fst_cases (SPSCQueueOPT.run α N ops).1 with
      h | h
    · rw [h]
      simpa using hN
    · rw [h]
      simpa using hb.1
  · rcases SPSCQueueOPT.front_cases (SPSCQueueOPT.run α N ops).1 with h | h
    · rw [h]
      simpa using hN
    · rw [h]
      simpa using hb.2

/-- Witness for C10 at `N = 4` on a concrete run. -/
theorem spsc_claim_C10_witness :
    (SPSCQueueOPT.run Nat 4 [Op.push 1, Op.push 2, Op.pop,
        Op.push 3]).1.write_idx < 4 ∧
    (SPSCQueueOPT.run Nat 4 [Op.push 1, Op.push 2, Op.pop,
        Op.push 3]).1.read_idx < 4 ∧
    (((SPSCQueueOPT.run Nat 4 [Op.push 1, Op.push 2, Op.pop,
        Op.push 3]).1.alloc).1.getD 0) < 4 ∧
    (((SPSCQueueOPT.run Nat 4 [Op.push 1, Op.push 2, Op.pop,
        Op.push 3]).1.front).getD 0) < 4 :=
  spsc_claim_C10 Nat 4 (by norm_num) [Op.push 1, Op.push 2, Op.pop, Op.push 3]
